import Mathlib

/-!
# Verification of the HOCON → widget-tree transformer (`src/config/element.rs`)

A shallow embedding of the transformer that turns a generic parsed
configuration value (`Hocon`) into a typed widget tree (`WidgetUse`,
`WidgetDefinition`), together with proofs about the claims of the
specification.

Modelling conventions:
* Rust's `HashMap<String, Hocon>` inside a parsed `Hocon::Hash` is modelled
  as an association list `List (String × Hocon)`; iteration order is the
  list order (the Rust `HashMap` has an arbitrary but fixed iteration
  order; the list fixes one).  `HashMap::get` is first-match lookup,
  `HashMap::remove` erases the (unique) matching entry.
* `Result<T>` (anyhow) is modelled as `Except ParseError T`; the distinct
  error values produced by the code are the constructors of `ParseError`,
  each carrying the data the corresponding message interpolates.
* The attribute map built by `.collect::<HashMap<_,_>>()` is modelled as an
  association list built by sequential insertion with overwrite
  (`attrInsert`), which is exactly the `HashMap` collect semantics
  (later entries for the same key overwrite earlier ones).
-/

/-- Modelled from the spec: `ConfigValue` — the external `Hocon` value tree.
A leaf is one of string, integer, boolean (plus the upstream type's `Null`
value, on which attribute coercion fails); a hash is an ordered mapping from
string keys to values; an array is an ordered sequence of values. -/
inductive Hocon where
  | hash : List (String × Hocon) → Hocon
  | array : List Hocon → Hocon
  | str : String → Hocon
  | integer : Int → Hocon
  | boolean : Bool → Hocon
  | null : Hocon

/-- Modelled from the spec: `PrimitiveValue`, the payload of a concrete
typed attribute value (string, number, boolean). -/
inductive PrimitiveValue where
  | str : String → PrimitiveValue
  | number : Int → PrimitiveValue
  | boolean : Bool → PrimitiveValue
deriving DecidableEq

/-- Modelled from the spec: `AttrValue`, the opaque typed attribute value
produced by coercion from a primitive config leaf. -/
inductive AttrValue where
  | concrete : PrimitiveValue → AttrValue
deriving DecidableEq

/-- The distinct error values produced by the transformer, one constructor
per `bail!`/`context` site, each carrying the data its message interpolates.
* `notAHash` — `hocon.as_hash()?` on a non-hash value.
* `emptyWidgetUse` — "tried to parse empty hash as widget use".
* `missingStructure` — "structure must be set in widget definition"
  (note: this message interpolates nothing, so the constructor carries no
  data).
* `invalidChildrenShape v` — "children of a widget must either be a list of
  widgets or a primitive value, but got hash: v".
* `coercionFailed v` — failure of `AttrValue::try_from(&v)`.
* `missingAttribute key name` — "attribute 'key' missing from widgetuse of
  'name'". -/
inductive ParseError where
  | notAHash : ParseError
  | emptyWidgetUse : ParseError
  | missingStructure : ParseError
  | invalidChildrenShape : Hocon → ParseError
  | coercionFailed : Hocon → ParseError
  | missingAttribute : String → String → ParseError

/-- Modelled from the spec: `AttrValue::try_from(&Hocon)` — coercion of a
config value into a typed attribute value.  It succeeds exactly on the
primitive leaves (string, integer, boolean) and fails on hash, array and
null shapes. -/
def AttrValue.try_from : Hocon → Except ParseError AttrValue
  | Hocon.str s => Except.ok (AttrValue.concrete (PrimitiveValue.str s))
  | Hocon.integer n => Except.ok (AttrValue.concrete (PrimitiveValue.number n))
  | Hocon.boolean b => Except.ok (AttrValue.concrete (PrimitiveValue.boolean b))
  | v => Except.error (ParseError.coercionFailed v)

/-- `HashMap::get` on the modelled hash: first entry with the given key. -/
def hashGet (m : List (String × Hocon)) (k : String) : Option Hocon :=
  (m.find? (fun p => p.1 == k)).map Prod.snd

/-- `HashMap::remove` on the modelled hash: erase the first entry with the
given key (a Rust `HashMap` holds at most one). -/
def hashRemoveKey (m : List (String × Hocon)) (k : String) : List (String × Hocon) :=
  m.eraseP (fun p => p.1 == k)

/-- `HashMap::insert` semantics on the modelled attribute map: overwrite the
existing entry for the key in place, else append a new entry. -/
def attrInsert (m : List (String × AttrValue)) (k : String) (v : AttrValue) :
    List (String × AttrValue) :=
  if m.any (fun p => p.1 == k) then
    m.map (fun p => if p.1 == k then (k, v) else p)
  else m ++ [(k, v)]

/-- `HashMap::get` on the modelled attribute map. -/
def attrGet (m : List (String × AttrValue)) (k : String) : Option AttrValue :=
  (m.find? (fun p => p.1 == k)).map Prod.snd

/-- Modelled from the Rust standard library: `str::to_lowercase` on the
ASCII range (the attribute keys of interest are ASCII). -/
def toLowercase (s : String) : String :=
  String.mk (s.data.map Char.toLower)

/-- One step of the attribute-map construction of
`WidgetUse::from_hash_definition`: lower-case the key, coerce the value,
insert on success, keep the map unchanged when coercion fails. -/
def collectAttrsStep (m : List (String × AttrValue)) (p : String × Hocon) :
    List (String × AttrValue) :=
  match AttrValue.try_from p.2 with
  | Except.ok v => attrInsert m (toLowercase p.1) v
  | Except.error _ => m

/-- The attribute-map construction of `WidgetUse::from_hash_definition`:
`.into_iter().filter_map(|(key, value)| Some((key.to_lowercase(),
AttrValue::try_from(&value).ok()?))).collect()` — lower-case each key,
coerce each value, silently drop pairs whose coercion fails, and collect
with last-write-wins insertion. -/
def collectAttrs (pairs : List (String × Hocon)) : List (String × AttrValue) :=
  pairs.foldl collectAttrsStep []

/-- `WidgetUse`: a node of the instantiated widget tree — name, ordered
children, attribute map. -/
inductive WidgetUse where
  | mk (name : String) (children : List WidgetUse)
      (attrs : List (String × AttrValue)) : WidgetUse

def WidgetUse.name : WidgetUse → String
  | WidgetUse.mk n _ _ => n

def WidgetUse.children : WidgetUse → List WidgetUse
  | WidgetUse.mk _ c _ => c

def WidgetUse.attrs : WidgetUse → List (String × AttrValue)
  | WidgetUse.mk _ _ a => a

/-- `WidgetUse::new`: name and children, empty attribute map. -/
def WidgetUse.new (name : String) (children : List WidgetUse) : WidgetUse :=
  WidgetUse.mk name children []

/-- `WidgetUse::simple_text`: the implicit text-label leaf — name "label",
no children, the single attribute "text" holding the given value. -/
def WidgetUse.simple_text (text : AttrValue) : WidgetUse :=
  WidgetUse.mk "label" [] [("text", text)]

/-- `WidgetUse::get_attr`: verbatim lookup of the given key in the
attribute map; failure carries the key and the widget's name. -/
def WidgetUse.get_attr (w : WidgetUse) (key : String) : Except ParseError AttrValue :=
  match attrGet w.attrs key with
  | some v => Except.ok v
  | none => Except.error (ParseError.missingAttribute key w.name)

mutual

/-- `WidgetUse::parse_hocon`: dispatch on the shape of the config value.
A hash yields its first entry `(widget_name, widget_config)` (an empty hash
is an error); a hash-shaped `widget_config` goes to hash-style
instantiation, any other shape is the direct-children specification.  A
non-hash input is coerced and promoted to the implicit text label. -/
def WidgetUse.parse_hocon : Hocon → Except ParseError WidgetUse
  | Hocon.hash data =>
    match data with
    | [] => Except.error ParseError.emptyWidgetUse
    | (widget_name, widget_config) :: _ =>
      match widget_config with
      | Hocon.hash wc => WidgetUse.from_hash_definition widget_name wc
      | direct_children =>
        match parse_widget_use_children direct_children with
        | Except.error e => Except.error e
        | Except.ok cs => Except.ok (WidgetUse.new widget_name cs)
  | primitive =>
    match AttrValue.try_from primitive with
    | Except.error e => Except.error e
    | Except.ok v => Except.ok (WidgetUse.simple_text v)
termination_by h => sizeOf h
decreasing_by
  all_goals simp_wf <;> simp_arith

/-- `WidgetUse::from_hash_definition`: remove and consume the "children"
entry (its value goes through the children-list transformation; absence
means no children), then turn every remaining entry into an attribute via
`collectAttrs`. -/
def WidgetUse.from_hash_definition (widget_name : String)
    (widget_config : List (String × Hocon)) : Except ParseError WidgetUse :=
  match h : hashGet widget_config "children" with
  | some c =>
    match parse_widget_use_children c with
    | Except.error e => Except.error e
    | Except.ok children =>
      Except.ok (WidgetUse.mk widget_name children
        (collectAttrs (hashRemoveKey widget_config "children")))
  | none =>
    Except.ok (WidgetUse.mk widget_name []
      (collectAttrs (hashRemoveKey widget_config "children")))
termination_by sizeOf widget_config
decreasing_by
  simp_wf
  obtain ⟨⟨k0, c0⟩, hf, hc⟩ := Option.map_eq_some'.mp h
  have hm := List.sizeOf_lt_of_mem (List.mem_of_find?_eq_some hf)
  simp at hm
  subst hc
  simp only [Prod.snd]
  omega

/-- `parse_widget_use_children`: a hash is an invalid children shape (the
error carries the offending value); an array is transformed element-wise
(fail-fast, order preserved); any other shape is coerced and promoted to a
single implicit text label. -/
def parse_widget_use_children : Hocon → Except ParseError (List WidgetUse)
  | Hocon.hash wc => Except.error (ParseError.invalidChildrenShape (Hocon.hash wc))
  | Hocon.array widget_children => parse_hocon_list widget_children
  | primitive =>
    match AttrValue.try_from primitive with
    | Except.error e => Except.error e
    | Except.ok v => Except.ok [WidgetUse.simple_text v]
termination_by c => sizeOf c
decreasing_by
  simp_wf <;> simp_arith

/-- The `.map(WidgetUse::parse_hocon).collect::<Result<Vec<_>>>()` loop:
transform each element left to right, aborting on the first error. -/
def parse_hocon_list : List Hocon → Except ParseError (List WidgetUse)
  | [] => Except.ok []
  | c :: cs =>
    match WidgetUse.parse_hocon c with
    | Except.error e => Except.error e
    | Except.ok w =>
      match parse_hocon_list cs with
      | Except.error e => Except.error e
      | Except.ok ws => Except.ok (w :: ws)
termination_by l => sizeOf l
decreasing_by
  all_goals simp_wf <;> simp_arith

end

/-- `WidgetUse::from_array_definition`: name mapped straight to a list of
child specifications. -/
def WidgetUse.from_array_definition (widget_name : String)
    (children : List Hocon) : Except ParseError WidgetUse :=
  match parse_hocon_list children with
  | Except.error e => Except.error e
  | Except.ok cs => Except.ok (WidgetUse.new widget_name cs)

def Hocon.isHash : Hocon → Bool
  | Hocon.hash _ => true
  | _ => false

def Hocon.isArray : Hocon → Bool
  | Hocon.array _ => true
  | _ => false

/-- Modelled from the spec: the upstream `Hocon::as_i64` accessor — an
integer value yields itself, a string value is parsed as an integer, any
other shape yields nothing. -/
def Hocon.as_i64 : Hocon → Option Int
  | Hocon.integer n => some n
  | Hocon.str s => s.toInt?
  | _ => none

/-- Modelled from the spec: the `hocon_ext::as_hash` helper — the entries
of a hash value, or the `NotAHash` error on any other shape. -/
def Hocon.as_hash : Hocon → Except ParseError (List (String × Hocon))
  | Hocon.hash m => Except.ok m
  | _ => Except.error ParseError.notAHash

/-- The `as i32` cast: wrap an `i64` into the `i32` range. -/
def toI32 (n : Int) : Int :=
  (n + 2 ^ 31) % 2 ^ 32 - 2 ^ 31

/-- `WidgetDefinition`: a named template wrapping one `WidgetUse` and an
optional fixed pixel size. -/
structure WidgetDefinition where
  name : String
  «structure» : WidgetUse
  size : Option (Int × Int)

/-- The `try { (definition.get("size_x")?.as_i64()? as i32,
definition.get("size_y")?.as_i64()? as i32) }` block of
`WidgetDefinition::parse_hocon`: best-effort extraction of the optional
size pair — any failing step yields `none`. -/
def definition_size (definition : List (String × Hocon)) : Option (Int × Int) :=
  match (hashGet definition "size_x").bind Hocon.as_i64 with
  | none => none
  | some x =>
    match (hashGet definition "size_y").bind Hocon.as_i64 with
    | none => none
    | some y => some (toI32 x, toI32 y)

/-- `WidgetDefinition::parse_hocon`: the value must be a hash; its
"structure" entry (mandatory) is transformed by `WidgetUse::parse_hocon`;
the size pair is extracted best-effort by `definition_size`. -/
def WidgetDefinition.parse_hocon (name : String) (hocon : Hocon) :
    Except ParseError WidgetDefinition :=
  match hocon.as_hash with
  | Except.error e => Except.error e
  | Except.ok definition =>
    match hashGet definition "structure" with
    | none => Except.error ParseError.missingStructure
    | some s =>
      match WidgetUse.parse_hocon s with
      | Except.error e => Except.error e
      | Except.ok st =>
        Except.ok ⟨name, st, definition_size definition⟩

/-- Unconditional unfolding equation for `WidgetUse.from_hash_definition`
(the definition itself uses a dependent match for termination). -/
theorem from_hash_definition_eq (widget_name : String) (wc : List (String × Hocon)) :
    WidgetUse.from_hash_definition widget_name wc =
      match hashGet wc "children" with
      | some c =>
        match parse_widget_use_children c with
        | Except.error e => Except.error e
        | Except.ok children =>
          Except.ok (WidgetUse.mk widget_name children
            (collectAttrs (hashRemoveKey wc "children")))
      | none =>
        Except.ok (WidgetUse.mk widget_name []
          (collectAttrs (hashRemoveKey wc "children"))) := by
  rw [WidgetUse.from_hash_definition]
  split
  next c h => rw [h]
  next h => rw [h]

/-! ## Helper lemmas -/

theorem toNat_ofNat_of_valid {n : Nat} (h : n.isValidChar) :
    (Char.ofNat n).toNat = n := by
  rw [Char.ofNat, dif_pos h]
  simp [Char.ofNatAux, Char.toNat, UInt32.toNat]

theorem char_isUpper_iff (c : Char) :
    c.isUpper = true ↔ 65 ≤ c.toNat ∧ c.toNat ≤ 90 := by
  simp [Char.isUpper, UInt32.le_def, BitVec.le_def, Char.toNat, UInt32.toNat]

theorem toLower_isUpper_false (c : Char) : (Char.toLower c).isUpper = false := by
  rw [Char.toLower]
  split
  next h =>
    have hval : (c.toNat + 32).isValidChar := Or.inl (by omega)
    have ht : (Char.ofNat (c.toNat + 32)).toNat = c.toNat + 32 :=
      toNat_ofNat_of_valid hval
    have hne : ¬ ((Char.ofNat (c.toNat + 32)).isUpper = true) := by
      rw [char_isUpper_iff, ht]
      omega
    simpa using hne
  next h =>
    have hne : ¬ (c.isUpper = true) := by
      rw [char_isUpper_iff]
      omega
    simpa using hne

/-- The output of `toLowercase` contains no (ASCII) upper-case letter. -/
theorem toLowercase_no_upper (s : String) :
    (toLowercase s).data.any Char.isUpper = false := by
  simp only [toLowercase, String.data, List.any_map, List.any_eq_false, Function.comp]
  intro c _
  simp [toLower_isUpper_false]

/-- Every entry of `attrInsert m k v` is the inserted entry or one of `m`
(with, possibly, its value overwritten but its key kept). -/
theorem mem_attrInsert {m : List (String × AttrValue)} {k : String} {v : AttrValue}
    {k' : String} {u : AttrValue} (h : (k', u) ∈ attrInsert m k v) :
    k' = k ∨ ∃ u', (k', u') ∈ m := by
  unfold attrInsert at h
  split at h
  · obtain ⟨p, hp, he⟩ := List.mem_map.mp h
    by_cases hk : (p.1 == k) = true
    · rw [if_pos hk] at he
      injection he with h1 h2
      exact Or.inl h1.symm
    · rw [if_neg hk] at he
      subst he
      exact Or.inr ⟨u, hp⟩
  · rcases List.mem_append.mp h with hm | hm
    · exact Or.inr ⟨u, hm⟩
    · simp at hm
      exact Or.inl hm.1

/-- Key provenance for the attribute collection: every key of the built map
is the lower-cased key of some input pair. -/
theorem mem_collectAttrs_foldl (pairs : List (String × Hocon))
    (acc : List (String × AttrValue)) {k : String} {v : AttrValue}
    (h : (k, v) ∈ pairs.foldl collectAttrsStep acc) :
    (∃ v', (k, v') ∈ acc) ∨ ∃ k0 v0, (k0, v0) ∈ pairs ∧ k = toLowercase k0 := by
  induction pairs generalizing acc with
  | nil => exact Or.inl ⟨v, by simpa using h⟩
  | cons p ps ih =>
    rw [List.foldl_cons] at h
    rcases ih (collectAttrsStep acc p) h with ⟨v', hv'⟩ | ⟨k0, v0, hk0, hlow⟩
    · unfold collectAttrsStep at hv'
      split at hv'
      · rcases mem_attrInsert hv' with hk | ⟨u', hu'⟩
        · exact Or.inr ⟨p.1, p.2, List.mem_cons_self _ _, hk⟩
        · exact Or.inl ⟨u', hu'⟩
      · exact Or.inl ⟨v', hv'⟩
    · exact Or.inr ⟨k0, v0, List.mem_cons_of_mem _ hk0, hlow⟩

theorem mem_collectAttrs {pairs : List (String × Hocon)} {k : String} {v : AttrValue}
    (h : (k, v) ∈ collectAttrs pairs) :
    ∃ k0 v0, (k0, v0) ∈ pairs ∧ k = toLowercase k0 := by
  rcases mem_collectAttrs_foldl pairs [] h with ⟨v', hv'⟩ | hk
  · simp at hv'
  · exact hk

/-- The name and attribute map of a successfully built hash-style widget. -/
theorem from_hash_definition_ok {widget_name : String}
    {wc : List (String × Hocon)} {w : WidgetUse}
    (h : WidgetUse.from_hash_definition widget_name wc = Except.ok w) :
    w.name = widget_name ∧ w.attrs = collectAttrs (hashRemoveKey wc "children") := by
  rw [from_hash_definition_eq] at h
  split at h
  · split at h
    · exact absurd h (by simp)
    · cases h
      exact ⟨rfl, rfl⟩
  · cases h
    exact ⟨rfl, rfl⟩

/-- `parse_hocon_list` succeeds exactly when every element parses, and the
output is the element-wise parse in the original order. -/
theorem parse_hocon_list_ok_iff (l : List Hocon) (ws : List WidgetUse) :
    parse_hocon_list l = Except.ok ws ↔
      List.Forall₂ (fun c w => WidgetUse.parse_hocon c = Except.ok w) l ws := by
  induction l generalizing ws with
  | nil =>
    simp only [parse_hocon_list]
    constructor
    · intro h
      cases h
      exact List.Forall₂.nil
    · intro h
      cases h
      rfl
  | cons c cs ih =>
    rw [parse_hocon_list]
    constructor
    · intro h
      split at h
      · exact absurd h (by simp)
      next w hw =>
        split at h
        · exact absurd h (by simp)
        next ws' hws' =>
          cases h
          exact List.Forall₂.cons hw ((ih ws').mp hws')
    · intro h
      cases h with
      | cons hw hws =>
        rw [hw]
        rw [(ih _).mpr hws]

/-- Fail-fast: the first failing element aborts the whole list with its
error. -/
theorem parse_hocon_list_error (l1 : List Hocon) (c : Hocon) (l2 : List Hocon)
    (e : ParseError) (h1 : ∀ x ∈ l1, ∃ w, WidgetUse.parse_hocon x = Except.ok w)
    (hc : WidgetUse.parse_hocon c = Except.error e) :
    parse_hocon_list (l1 ++ c :: l2) = Except.error e := by
  induction l1 with
  | nil =>
    rw [List.nil_append, parse_hocon_list, hc]
  | cons x xs ih =>
    obtain ⟨w, hw⟩ := h1 x (List.mem_cons_self _ _)
    rw [List.cons_append, parse_hocon_list, hw,
      ih (fun y hy => h1 y (List.mem_cons_of_mem _ hy))]

/-- Searching for a key different from `k` passes over an entry with key
`k`. -/
theorem find?_middle (pre post : List (String × Hocon)) (k : String)
    (v : Hocon) (k' : String) (hk : (k == k') = false) :
    List.find? (fun p => p.1 == k') (pre ++ (k, v) :: post) =
      List.find? (fun p => p.1 == k') (pre ++ post) := by
  induction pre with
  | nil => simp [List.find?_cons, hk]
  | cons p ps ih =>
    rw [List.cons_append, List.cons_append, List.find?_cons, List.find?_cons, ih]

/-- Looking up a key different from `k` ignores an entry with key `k`. -/
theorem hashGet_middle (pre post : List (String × Hocon)) (k : String)
    (v : Hocon) (k' : String) (hk : (k == k') = false) :
    hashGet (pre ++ (k, v) :: post) k' = hashGet (pre ++ post) k' := by
  unfold hashGet
  rw [find?_middle pre post k v k' hk]

/-- Erasing by a key different from `k` passes over an entry with key `k`:
the erased lists with and without that entry differ exactly by it. -/
theorem hashRemoveKey_middle (pre post : List (String × Hocon)) (k : String)
    (v : Hocon) (k' : String) (hk : (k == k') = false) :
    ∃ X Y, hashRemoveKey (pre ++ (k, v) :: post) k' = X ++ (k, v) :: Y ∧
      hashRemoveKey (pre ++ post) k' = X ++ Y := by
  induction pre with
  | nil =>
    refine ⟨[], hashRemoveKey post k', ?_, ?_⟩
    · simp only [List.nil_append, hashRemoveKey, List.eraseP_cons, hk]
      rfl
    · simp [hashRemoveKey]
  | cons p ps ih =>
    cases hp : (p.1 == k') with
    | true =>
      refine ⟨ps, post, ?_, ?_⟩
      · simp only [List.cons_append, hashRemoveKey, List.eraseP_cons, hp]
        rfl
      · simp only [List.cons_append, hashRemoveKey, List.eraseP_cons, hp]
        rfl
    | false =>
      obtain ⟨X, Y, h1, h2⟩ := ih
      refine ⟨p :: X, Y, ?_, ?_⟩
      · simp only [List.cons_append, hashRemoveKey, List.eraseP_cons, hp] at h1 ⊢
        simp [h1]
      · simp only [List.cons_append, hashRemoveKey, List.eraseP_cons, hp] at h2 ⊢
        simp [h2]

/-- A pair whose value fails coercion contributes nothing to the collected
attribute map, wherever it sits. -/
theorem collectAttrs_middle (X Y : List (String × Hocon)) (k : String)
    (v : Hocon) (e : ParseError) (hv : AttrValue.try_from v = Except.error e) :
    collectAttrs (X ++ (k, v) :: Y) = collectAttrs (X ++ Y) := by
  unfold collectAttrs
  rw [List.foldl_append, List.foldl_append, List.foldl_cons]
  congr 1
  unfold collectAttrsStep
  rw [hv]

/-- `eraseP` leaves a list without a matching entry unchanged. -/
theorem hashRemoveKey_no_match (m : List (String × Hocon)) (k : String)
    (h : hashGet m k = none) : hashRemoveKey m k = m := by
  apply List.eraseP_of_forall_not
  intro p hp
  unfold hashGet at h
  have hfind : List.find? (fun p => p.1 == k) m = none := by
    cases hf : List.find? (fun p => p.1 == k) m with
    | none => rfl
    | some q => rw [hf] at h; simp at h
  have hnp := List.find?_eq_none.mp hfind p hp
  simpa using hnp

/-! ## Claims -/

/-- C1: for every primitive (non-hash, non-array) config value `p` whose
`AttrValue` coercion succeeds, `WidgetUse::parse_hocon(p)` returns a
`WidgetUse` named "label" with no children and exactly the single
attribute "text" bound to the coerced value of `p`. -/
theorem claim_C1 (p : Hocon) (v : AttrValue) (h1 : p.isHash = false)
    (h2 : p.isArray = false) (h3 : AttrValue.try_from p = Except.ok v) :
    WidgetUse.parse_hocon p = Except.ok (WidgetUse.mk "label" [] [("text", v)]) := by
  cases p with
  | hash m => simp [Hocon.isHash] at h1
  | array l => simp [Hocon.isArray] at h2
  | str s => simp [WidgetUse.parse_hocon, h3, WidgetUse.simple_text]
  | integer n => simp [WidgetUse.parse_hocon, h3, WidgetUse.simple_text]
  | boolean b => simp [WidgetUse.parse_hocon, h3, WidgetUse.simple_text]
  | null => simp [AttrValue.try_from] at h3

theorem claim_C1_witness :
    Hocon.isHash (Hocon.str "hello") = false ∧
    Hocon.isArray (Hocon.str "hello") = false ∧
    AttrValue.try_from (Hocon.str "hello") =
      Except.ok (AttrValue.concrete (PrimitiveValue.str "hello")) ∧
    WidgetUse.parse_hocon (Hocon.str "hello") =
      Except.ok (WidgetUse.mk "label" []
        [("text", AttrValue.concrete (PrimitiveValue.str "hello"))]) :=
  ⟨rfl, rfl, rfl, claim_C1 (Hocon.str "hello")
    (AttrValue.concrete (PrimitiveValue.str "hello")) rfl rfl rfl⟩

/-- C8: parsing an empty hash as a widget use fails with the
`EmptyWidgetUse` error. -/
theorem claim_C8 :
    WidgetUse.parse_hocon (Hocon.hash []) = Except.error ParseError.emptyWidgetUse := by
  simp [WidgetUse.parse_hocon]

/-- C10: for every hash passed to `WidgetUse::parse_hocon`, exactly one
key-value pair (the first) is taken as the `(name, inner)` widget use and
all remaining entries are silently discarded — parsing the hash is the same
as parsing the singleton hash of its first entry, so extra entries never
cause an error and leave no trace in the result. -/
theorem claim_C10 (first : String × Hocon) (rest : List (String × Hocon)) :
    WidgetUse.parse_hocon (Hocon.hash (first :: rest)) =
      WidgetUse.parse_hocon (Hocon.hash [first]) := by
  obtain ⟨n, cfg⟩ := first
  cases cfg <;> simp [WidgetUse.parse_hocon]

/-- C2: for every widget name `n` and non-hash children specification `cs`
that transforms successfully, the array/primitive shorthand `{n: cs}` and
the hash form `{n: {children: cs}}` produce the same `WidgetUse`: name `n`,
the same children sequence, and an empty attribute map. -/
theorem claim_C2 (n : String) (cs : Hocon) (ch : List WidgetUse)
    (h1 : cs.isHash = false) (h2 : parse_widget_use_children cs = Except.ok ch) :
    WidgetUse.parse_hocon (Hocon.hash [(n, cs)]) =
      Except.ok (WidgetUse.mk n ch []) ∧
    WidgetUse.parse_hocon (Hocon.hash [(n, Hocon.hash [("children", cs)])]) =
      Except.ok (WidgetUse.mk n ch []) := by
  constructor
  · cases cs with
    | hash m => simp [Hocon.isHash] at h1
    | array l => simp [WidgetUse.parse_hocon, h2, WidgetUse.new]
    | str s => simp [WidgetUse.parse_hocon, h2, WidgetUse.new]
    | integer k => simp [WidgetUse.parse_hocon, h2, WidgetUse.new]
    | boolean b => simp [WidgetUse.parse_hocon, h2, WidgetUse.new]
    | null => simp [WidgetUse.parse_hocon, h2, WidgetUse.new]
  · have hg : hashGet [("children", cs)] "children" = some cs := by
      simp [hashGet]
    simp [WidgetUse.parse_hocon, from_hash_definition_eq, hg, h2,
      hashRemoveKey, List.eraseP_cons, collectAttrs]

theorem claim_C2_witness :
    WidgetUse.parse_hocon (Hocon.hash [("box", Hocon.array [Hocon.str "hi"])]) =
      Except.ok (WidgetUse.mk "box"
        [WidgetUse.mk "label" [] [("text", AttrValue.concrete (PrimitiveValue.str "hi"))]] []) ∧
    WidgetUse.parse_hocon
        (Hocon.hash [("box", Hocon.hash [("children", Hocon.array [Hocon.str "hi"])])]) =
      Except.ok (WidgetUse.mk "box"
        [WidgetUse.mk "label" [] [("text", AttrValue.concrete (PrimitiveValue.str "hi"))]] []) :=
  claim_C2 "box" (Hocon.array [Hocon.str "hi"])
    [WidgetUse.mk "label" [] [("text", AttrValue.concrete (PrimitiveValue.str "hi"))]]
    rfl
    (by simp [parse_widget_use_children, parse_hocon_list, WidgetUse.parse_hocon,
      AttrValue.try_from, WidgetUse.simple_text])

/-- C3: coercion failure is fatal on the two leaf-promotion paths — the
top-level primitive case of `parse_hocon` and the primitive case of
`parse_widget_use_children` both fail with the coercion error — while on
the hash-style attribute-extraction path a pair whose value fails coercion
is silently omitted (the construction behaves exactly as if the pair were
absent) and construction still succeeds whenever the rest does (in
particular, with no "children" entry it always succeeds). -/
theorem claim_C3 :
    (∀ (p : Hocon) (e : ParseError), p.isHash = false → p.isArray = false →
      AttrValue.try_from p = Except.error e →
      WidgetUse.parse_hocon p = Except.error e) ∧
    (∀ (p : Hocon) (e : ParseError), p.isHash = false → p.isArray = false →
      AttrValue.try_from p = Except.error e →
      parse_widget_use_children p = Except.error e) ∧
    (∀ (widget_name k : String) (v : Hocon) (e : ParseError)
      (pre post : List (String × Hocon)),
      AttrValue.try_from v = Except.error e → k ≠ "children" →
      WidgetUse.from_hash_definition widget_name (pre ++ (k, v) :: post) =
        WidgetUse.from_hash_definition widget_name (pre ++ post)) ∧
    (∀ (widget_name : String) (wc : List (String × Hocon)),
      hashGet wc "children" = none →
      WidgetUse.from_hash_definition widget_name wc =
        Except.ok (WidgetUse.mk widget_name [] (collectAttrs wc))) := by
  refine ⟨?_, ?_, ?_, ?_⟩
  · intro p e h1 h2 h3
    cases p with
    | hash m => simp [Hocon.isHash] at h1
    | array l => simp [Hocon.isArray] at h2
    | str s => simp [AttrValue.try_from] at h3
    | integer n => simp [AttrValue.try_from] at h3
    | boolean b => simp [AttrValue.try_from] at h3
    | null => simp [WidgetUse.parse_hocon, h3]
  · intro p e h1 h2 h3
    cases p with
    | hash m => simp [Hocon.isHash] at h1
    | array l => simp [Hocon.isArray] at h2
    | str s => simp [AttrValue.try_from] at h3
    | integer n => simp [AttrValue.try_from] at h3
    | boolean b => simp [AttrValue.try_from] at h3
    | null => simp [parse_widget_use_children, h3]
  · intro widget_name k v e pre post hv hk
    have hkb : (k == "children") = false := beq_eq_false_iff_ne.mpr hk
    obtain ⟨X, Y, h1, h2⟩ := hashRemoveKey_middle pre post k v "children" hkb
    have hca : collectAttrs (hashRemoveKey (pre ++ (k, v) :: post) "children") =
        collectAttrs (hashRemoveKey (pre ++ post) "children") := by
      rw [h1, h2]
      exact collectAttrs_middle X Y k v e hv
    rw [from_hash_definition_eq, from_hash_definition_eq,
      hashGet_middle pre post k v "children" hkb]
    simp only [hca]
  · intro widget_name wc hg
    rw [from_hash_definition_eq, hg, hashRemoveKey_no_match wc "children" hg]

theorem claim_C3_witness :
    WidgetUse.parse_hocon Hocon.null =
      Except.error (ParseError.coercionFailed Hocon.null) ∧
    parse_widget_use_children Hocon.null =
      Except.error (ParseError.coercionFailed Hocon.null) ∧
    WidgetUse.from_hash_definition "w"
        ([] ++ ("a", Hocon.hash []) :: [("b", Hocon.str "x")]) =
      WidgetUse.from_hash_definition "w" ([] ++ [("b", Hocon.str "x")]) ∧
    WidgetUse.from_hash_definition "w" [("b", Hocon.str "x")] =
      Except.ok (WidgetUse.mk "w" [] (collectAttrs [("b", Hocon.str "x")])) :=
  ⟨claim_C3.1 Hocon.null (ParseError.coercionFailed Hocon.null) rfl rfl rfl,
   claim_C3.2.1 Hocon.null (ParseError.coercionFailed Hocon.null) rfl rfl rfl,
   claim_C3.2.2.1 "w" "a" (Hocon.hash []) (ParseError.coercionFailed (Hocon.hash []))
     [] [("b", Hocon.str "x")] rfl (by decide),
   claim_C3.2.2.2 "w" [("b", Hocon.str "x")] (by simp [hashGet])⟩

/-- C4: the children-list transformation's full contract — a hash fails
with `InvalidChildrenShape` carrying the offending value; an array is
transformed element-wise in order (success is exactly element-wise success,
in the original order), and the first failing element aborts the whole list
with that element's error; a primitive yields the single-element sequence
holding its implicit text-label leaf. -/
theorem claim_C4 :
    (∀ m : List (String × Hocon),
      parse_widget_use_children (Hocon.hash m) =
        Except.error (ParseError.invalidChildrenShape (Hocon.hash m))) ∧
    (∀ (l : List Hocon) (ws : List WidgetUse),
      parse_widget_use_children (Hocon.array l) = Except.ok ws ↔
        List.Forall₂ (fun c w => WidgetUse.parse_hocon c = Except.ok w) l ws) ∧
    (∀ (l1 : List Hocon) (c : Hocon) (l2 : List Hocon) (e : ParseError),
      (∀ x ∈ l1, ∃ w, WidgetUse.parse_hocon x = Except.ok w) →
      WidgetUse.parse_hocon c = Except.error e →
      parse_widget_use_children (Hocon.array (l1 ++ c :: l2)) = Except.error e) ∧
    (∀ (p : Hocon) (v : AttrValue), p.isHash = false → p.isArray = false →
      AttrValue.try_from p = Except.ok v →
      parse_widget_use_children p = Except.ok [WidgetUse.simple_text v]) := by
  refine ⟨?_, ?_, ?_, ?_⟩
  · intro m
    simp [parse_widget_use_children]
  · intro l ws
    rw [parse_widget_use_children]
    exact parse_hocon_list_ok_iff l ws
  · intro l1 c l2 e h1 hc
    rw [parse_widget_use_children]
    exact parse_hocon_list_error l1 c l2 e h1 hc
  · intro p v h1 h2 h3
    cases p with
    | hash m => simp [Hocon.isHash] at h1
    | array l => simp [Hocon.isArray] at h2
    | str s => simp [parse_widget_use_children, h3]
    | integer n => simp [parse_widget_use_children, h3]
    | boolean b => simp [parse_widget_use_children, h3]
    | null => simp [AttrValue.try_from] at h3

theorem claim_C4_witness :
    parse_widget_use_children (Hocon.array [Hocon.str "a", Hocon.str "b"]) =
      Except.ok
        [WidgetUse.mk "label" [] [("text", AttrValue.concrete (PrimitiveValue.str "a"))],
         WidgetUse.mk "label" [] [("text", AttrValue.concrete (PrimitiveValue.str "b"))]] ∧
    parse_widget_use_children
        (Hocon.array ([Hocon.str "a"] ++ Hocon.hash [] :: [Hocon.str "b"])) =
      Except.error ParseError.emptyWidgetUse ∧
    parse_widget_use_children (Hocon.integer 7) =
      Except.ok [WidgetUse.simple_text (AttrValue.concrete (PrimitiveValue.number 7))] := by
  refine ⟨?_, ?_, ?_⟩
  · exact (claim_C4.2.1 [Hocon.str "a", Hocon.str "b"] _).mpr
      (List.Forall₂.cons
        (by simp [WidgetUse.parse_hocon, AttrValue.try_from, WidgetUse.simple_text])
        (List.Forall₂.cons
          (by simp [WidgetUse.parse_hocon, AttrValue.try_from, WidgetUse.simple_text])
          List.Forall₂.nil))
  · exact claim_C4.2.2.1 [Hocon.str "a"] (Hocon.hash []) [Hocon.str "b"]
      ParseError.emptyWidgetUse
      (by
        intro x hx
        simp at hx
        subst hx
        exact ⟨WidgetUse.mk "label" [] [("text", AttrValue.concrete (PrimitiveValue.str "a"))],
          by simp [WidgetUse.parse_hocon, AttrValue.try_from, WidgetUse.simple_text]⟩)
      (by simp [WidgetUse.parse_hocon])
  · exact claim_C4.2.2.2 (Hocon.integer 7) (AttrValue.concrete (PrimitiveValue.number 7))
      rfl rfl rfl

/-- C5 (amended): in hash-style instantiation every attribute key is
lower-cased before insertion and duplicate-after-lowercasing keys resolve
last-write-wins; consequently case variants of a key yield the same result
— provided the lower-cased key is not the reserved key "children" (a case
variant of "children" becomes an attribute, while "children" itself is
consumed as the children specification, so case-insensitivity does not
extend to that one key). -/
theorem claim_C5 :
    (∀ (widget_name : String) (wc : List (String × Hocon)) (w : WidgetUse)
      (k : String) (v : AttrValue),
      WidgetUse.from_hash_definition widget_name wc = Except.ok w →
      (k, v) ∈ w.attrs →
      ∃ k0 v0, (k0, v0) ∈ wc ∧ k = toLowercase k0) ∧
    (∀ (widget_name k1 k2 : String) (v1 v2 : Hocon) (a1 a2 : AttrValue),
      k1 ≠ "children" → k2 ≠ "children" →
      toLowercase k1 = toLowercase k2 →
      AttrValue.try_from v1 = Except.ok a1 →
      AttrValue.try_from v2 = Except.ok a2 →
      WidgetUse.from_hash_definition widget_name [(k1, v1), (k2, v2)] =
        Except.ok (WidgetUse.mk widget_name [] [(toLowercase k2, a2)])) ∧
    (∀ (w K k : String) (v : Hocon),
      toLowercase K = toLowercase k → toLowercase k ≠ "children" →
      WidgetUse.parse_hocon (Hocon.hash [(w, Hocon.hash [(K, v)])]) =
        WidgetUse.parse_hocon (Hocon.hash [(w, Hocon.hash [(k, v)])])) := by
  refine ⟨?_, ?_, ?_⟩
  · intro widget_name wc w k v hok hmem
    have hattr := (from_hash_definition_ok hok).2
    rw [hattr] at hmem
    obtain ⟨k0, v0, hk0, hlow⟩ := mem_collectAttrs hmem
    exact ⟨k0, v0, List.mem_of_mem_eraseP hk0, hlow⟩
  · intro widget_name k1 k2 v1 v2 a1 a2 hk1 hk2 hlow h1 h2
    have hb1 : (k1 == "children") = false := beq_eq_false_iff_ne.mpr hk1
    have hb2 : (k2 == "children") = false := beq_eq_false_iff_ne.mpr hk2
    have hg : hashGet [(k1, v1), (k2, v2)] "children" = none := by
      simp [hashGet, List.find?_cons, hb1, hb2]
    rw [from_hash_definition_eq, hg, hashRemoveKey_no_match _ _ hg]
    simp [collectAttrs, collectAttrsStep, h1, h2, attrInsert, hlow]
  · intro w K k v hKk hkc
    have hlc : toLowercase "children" = "children" := by decide
    have hKc : K ≠ "children" := fun h => hkc (by rw [← hKk, h, hlc])
    have hkc' : k ≠ "children" := fun h => hkc (by rw [h, hlc])
    have hbK : (K == "children") = false := beq_eq_false_iff_ne.mpr hKc
    have hbk : (k == "children") = false := beq_eq_false_iff_ne.mpr hkc'
    have hgK : hashGet [(K, v)] "children" = none := by
      simp [hashGet, List.find?_cons, hbK]
    have hgk : hashGet [(k, v)] "children" = none := by
      simp [hashGet, List.find?_cons, hbk]
    simp only [WidgetUse.parse_hocon]
    rw [from_hash_definition_eq, from_hash_definition_eq, hgK, hgk,
      hashRemoveKey_no_match _ _ hgK, hashRemoveKey_no_match _ _ hgk]
    simp only [collectAttrs, List.foldl_cons, List.foldl_nil, collectAttrsStep]
    cases htf : AttrValue.try_from v with
    | ok a => simp [htf, attrInsert, hKk]
    | error e => simp [htf]

/-- C5 counterexample: for the key "children", case-insensitivity fails —
`{w: {Children: "hi"}}` makes "children" an attribute, while
`{w: {children: "hi"}}` consumes the entry as the children specification,
so the two attribute maps differ. -/
theorem claim_C5_counterexample :
    WidgetUse.parse_hocon (Hocon.hash [("w", Hocon.hash [("Children", Hocon.str "hi")])]) =
      Except.ok (WidgetUse.mk "w" []
        [("children", AttrValue.concrete (PrimitiveValue.str "hi"))]) ∧
    WidgetUse.parse_hocon (Hocon.hash [("w", Hocon.hash [("children", Hocon.str "hi")])]) =
      Except.ok (WidgetUse.mk "w"
        [WidgetUse.mk "label" [] [("text", AttrValue.concrete (PrimitiveValue.str "hi"))]] []) ∧
    (WidgetUse.mk "w" [] [("children", AttrValue.concrete (PrimitiveValue.str "hi"))]).attrs ≠
      (WidgetUse.mk "w"
        [WidgetUse.mk "label" [] [("text", AttrValue.concrete (PrimitiveValue.str "hi"))]] []).attrs := by
  have hlc : toLowercase "Children" = "children" := by decide
  refine ⟨?_, ?_, by decide⟩
  · simp [WidgetUse.parse_hocon, from_hash_definition_eq, hashGet, hashRemoveKey,
      collectAttrs, collectAttrsStep, attrInsert, AttrValue.try_from, hlc]
  · simp [WidgetUse.parse_hocon, from_hash_definition_eq, hashGet, hashRemoveKey,
      collectAttrs, collectAttrsStep, parse_widget_use_children, AttrValue.try_from,
      WidgetUse.simple_text]

theorem claim_C5_witness :
    WidgetUse.from_hash_definition "w" [("FOO", Hocon.str "a"), ("Foo", Hocon.str "b")] =
      Except.ok (WidgetUse.mk "w" []
        [("foo", AttrValue.concrete (PrimitiveValue.str "b"))]) ∧
    WidgetUse.parse_hocon (Hocon.hash [("w", Hocon.hash [("Bar", Hocon.integer 3)])]) =
      WidgetUse.parse_hocon (Hocon.hash [("w", Hocon.hash [("bar", Hocon.integer 3)])]) := by
  constructor
  · have h := claim_C5.2.1 "w" "FOO" "Foo" (Hocon.str "a") (Hocon.str "b")
      (AttrValue.concrete (PrimitiveValue.str "a"))
      (AttrValue.concrete (PrimitiveValue.str "b"))
      (by decide) (by decide) (by decide) rfl rfl
    have hlf : toLowercase "Foo" = "foo" := by decide
    rwa [hlf] at h
  · exact claim_C5.2.2 "w" "Bar" "bar" (Hocon.integer 3) (by decide) (by decide)

/-- C6: size extraction is best-effort — whenever the mandatory structure
transforms successfully the definition is built with `size =
definition_size m`, and that size is `some (x, y)` exactly when both
`size_x` and `size_y` are present and parse as integers; a missing or
malformed key (including only one of the two present) yields `size = none`
without aborting construction. -/
theorem claim_C6 (name : String) (m : List (String × Hocon)) (st : Hocon)
    (w : WidgetUse) (hs : hashGet m "structure" = some st)
    (hw : WidgetUse.parse_hocon st = Except.ok w) :
    WidgetDefinition.parse_hocon name (Hocon.hash m) =
      Except.ok ⟨name, w, definition_size m⟩ ∧
    (∀ x y : Int, definition_size m = some (x, y) ↔
      ∃ hx hy a b, hashGet m "size_x" = some hx ∧ Hocon.as_i64 hx = some a ∧
        hashGet m "size_y" = some hy ∧ Hocon.as_i64 hy = some b ∧
        x = toI32 a ∧ y = toI32 b) ∧
    (((hashGet m "size_x").bind Hocon.as_i64 = none ∨
      (hashGet m "size_y").bind Hocon.as_i64 = none) →
      definition_size m = none) := by
  refine ⟨?_, ?_, ?_⟩
  · simp [WidgetDefinition.parse_hocon, Hocon.as_hash, hs, hw]
  · intro x y
    unfold definition_size
    constructor
    · intro h
      cases hx0 : (hashGet m "size_x").bind Hocon.as_i64 with
      | none => rw [hx0] at h; exact absurd h (by simp)
      | some a =>
        rw [hx0] at h
        cases hy0 : (hashGet m "size_y").bind Hocon.as_i64 with
        | none => rw [hy0] at h; exact absurd h (by simp)
        | some b =>
          rw [hy0] at h
          injection h with h'
          injection h' with e1 e2
          obtain ⟨hx, hhx, hax⟩ := Option.bind_eq_some.mp hx0
          obtain ⟨hy, hhy, hay⟩ := Option.bind_eq_some.mp hy0
          exact ⟨hx, hy, a, b, hhx, hax, hhy, hay, e1.symm, e2.symm⟩
    · rintro ⟨hx, hy, a, b, hhx, hax, hhy, hay, rfl, rfl⟩
      simp [hhx, hax, hhy, hay]
  · intro h
    unfold definition_size
    rcases h with h | h
    · rw [h]
    · cases hx0 : (hashGet m "size_x").bind Hocon.as_i64 with
      | none => rfl
      | some a => simp [h]

theorem claim_C6_witness :
    WidgetDefinition.parse_hocon "wd"
        (Hocon.hash [("structure", Hocon.hash [("foo", Hocon.hash [])]),
          ("size_x", Hocon.integer 100)]) =
      Except.ok ⟨"wd", WidgetUse.mk "foo" [] [], none⟩ := by
  have h := claim_C6 "wd"
    [("structure", Hocon.hash [("foo", Hocon.hash [])]), ("size_x", Hocon.integer 100)]
    (Hocon.hash [("foo", Hocon.hash [])]) (WidgetUse.mk "foo" [] []) rfl
    (by simp [WidgetUse.parse_hocon, from_hash_definition_eq, hashGet,
      hashRemoveKey, collectAttrs])
  have hds : definition_size
      [("structure", Hocon.hash [("foo", Hocon.hash [])]), ("size_x", Hocon.integer 100)] =
      none := h.2.2 (Or.inr rfl)
  rw [hds] at h
  exact h.1

/-- C7 (amended): a definition hash lacking the "structure" key fails with
the `MissingField("structure")` error, whose value does not depend on (and
does not carry) the definition name passed by the caller; when the key is
present its value is transformed recursively by the `WidgetUse` algorithm,
any failure there propagates, and on success the definition wraps the
transformed structure. -/
theorem claim_C7 :
    (∀ (name : String) (m : List (String × Hocon)),
      hashGet m "structure" = none →
      WidgetDefinition.parse_hocon name (Hocon.hash m) =
        Except.error ParseError.missingStructure) ∧
    (∀ (name1 name2 : String) (m : List (String × Hocon)),
      hashGet m "structure" = none →
      WidgetDefinition.parse_hocon name1 (Hocon.hash m) =
        WidgetDefinition.parse_hocon name2 (Hocon.hash m)) ∧
    (∀ (name : String) (m : List (String × Hocon)) (s : Hocon) (e : ParseError),
      hashGet m "structure" = some s → WidgetUse.parse_hocon s = Except.error e →
      WidgetDefinition.parse_hocon name (Hocon.hash m) = Except.error e) ∧
    (∀ (name : String) (m : List (String × Hocon)) (s : Hocon) (w : WidgetUse),
      hashGet m "structure" = some s → WidgetUse.parse_hocon s = Except.ok w →
      WidgetDefinition.parse_hocon name (Hocon.hash m) =
        Except.ok ⟨name, w, definition_size m⟩) := by
  refine ⟨?_, ?_, ?_, ?_⟩
  · intro name m hg
    simp [WidgetDefinition.parse_hocon, Hocon.as_hash, hg]
  · intro name1 name2 m hg
    simp [WidgetDefinition.parse_hocon, Hocon.as_hash, hg]
  · intro name m s e hg he
    simp [WidgetDefinition.parse_hocon, Hocon.as_hash, hg, he]
  · intro name m s w hg hw
    simp [WidgetDefinition.parse_hocon, Hocon.as_hash, hg, hw]

/-- C7 counterexample: the `MissingField("structure")` error carries no
trace of the definition name — two different caller-supplied names produce
literally the same error value, contradicting the claim that the name
passed by the caller appears in the error's diagnostic context. -/
theorem claim_C7_counterexample :
    WidgetDefinition.parse_hocon "definition_name_alpha" (Hocon.hash []) =
      Except.error ParseError.missingStructure ∧
    WidgetDefinition.parse_hocon "definition_name_beta" (Hocon.hash []) =
      Except.error ParseError.missingStructure ∧
    WidgetDefinition.parse_hocon "definition_name_alpha" (Hocon.hash []) =
      WidgetDefinition.parse_hocon "definition_name_beta" (Hocon.hash []) :=
  ⟨rfl, rfl, rfl⟩

theorem claim_C7_witness :
    WidgetDefinition.parse_hocon "foo" (Hocon.hash [("size_x", Hocon.integer 1)]) =
      Except.error ParseError.missingStructure ∧
    WidgetDefinition.parse_hocon "foo"
        (Hocon.hash [("structure", Hocon.hash [])]) =
      Except.error ParseError.emptyWidgetUse :=
  ⟨claim_C7.1 "foo" [("size_x", Hocon.integer 1)] rfl,
   claim_C7.2.2.1 "foo" [("structure", Hocon.hash [])] (Hocon.hash [])
     ParseError.emptyWidgetUse rfl (by simp [WidgetUse.parse_hocon])⟩

/-- C9: every attribute key stored by the transformer is already
lower-case (hash-style extraction lower-cases keys; leaf promotion stores
only "text"), while `get_attr` looks the key up verbatim; hence for any
hash-built widget, looking up a key containing an upper-case letter fails
with `MissingAttribute` — even when the lower-cased form is present. -/
theorem claim_C9 :
    (∀ (widget_name : String) (wc : List (String × Hocon)) (w : WidgetUse)
      (k : String) (v : AttrValue),
      WidgetUse.from_hash_definition widget_name wc = Except.ok w →
      (k, v) ∈ w.attrs → k.data.any Char.isUpper = false) ∧
    (∀ (widget_name : String) (wc : List (String × Hocon)) (w : WidgetUse)
      (k : String),
      WidgetUse.from_hash_definition widget_name wc = Except.ok w →
      k.data.any Char.isUpper = true →
      WidgetUse.get_attr w k =
        Except.error (ParseError.missingAttribute k w.name)) ∧
    (∀ v : AttrValue, (WidgetUse.simple_text v).attrs = [("text", v)]) := by
  have key_lower : ∀ (widget_name : String) (wc : List (String × Hocon))
      (w : WidgetUse) (k : String) (v : AttrValue),
      WidgetUse.from_hash_definition widget_name wc = Except.ok w →
      (k, v) ∈ w.attrs → k.data.any Char.isUpper = false := by
    intro widget_name wc w k v hok hmem
    have hattr := (from_hash_definition_ok hok).2
    rw [hattr] at hmem
    obtain ⟨k0, v0, _, hlow⟩ := mem_collectAttrs hmem
    rw [hlow]
    exact toLowercase_no_upper k0
  refine ⟨key_lower, ?_, fun v => rfl⟩
  intro widget_name wc w k hok hk
  have hnone : attrGet w.attrs k = none := by
    unfold attrGet
    have hfind : List.find? (fun p => p.1 == k) w.attrs = none := by
      rw [List.find?_eq_none]
      intro p hp
      simp only [beq_iff_eq]
      intro hpk
      have hlow := key_lower widget_name wc w p.1 p.2 hok hp
      rw [hpk, hk] at hlow
      cases hlow
    rw [hfind]
    rfl
  unfold WidgetUse.get_attr
  rw [hnone]

theorem claim_C9_witness :
    WidgetUse.from_hash_definition "w" [("Foo", Hocon.str "x")] =
      Except.ok (WidgetUse.mk "w" []
        [("foo", AttrValue.concrete (PrimitiveValue.str "x"))]) ∧
    attrGet (WidgetUse.mk "w" []
      [("foo", AttrValue.concrete (PrimitiveValue.str "x"))]).attrs "foo" =
      some (AttrValue.concrete (PrimitiveValue.str "x")) ∧
    WidgetUse.get_attr (WidgetUse.mk "w" []
        [("foo", AttrValue.concrete (PrimitiveValue.str "x"))]) "Foo" =
      Except.error (ParseError.missingAttribute "Foo" "w") := by
  have hlf : toLowercase "Foo" = "foo" := by decide
  have hok : WidgetUse.from_hash_definition "w" [("Foo", Hocon.str "x")] =
      Except.ok (WidgetUse.mk "w" []
        [("foo", AttrValue.concrete (PrimitiveValue.str "x"))]) := by
    simp [from_hash_definition_eq, hashGet, hashRemoveKey, collectAttrs,
      collectAttrsStep, attrInsert, AttrValue.try_from, hlf]
  have h := claim_C9.2.1 "w" [("Foo", Hocon.str "x")]
    (WidgetUse.mk "w" [] [("foo", AttrValue.concrete (PrimitiveValue.str "x"))])
    "Foo" hok (by decide)
  exact ⟨hok, rfl, h⟩
